import Mathlib

/-!
Shallow embedding of the autoregressive decoding engine of
`src/mlx_vlm/utils.py` (mlx-vlm), covering:

* `apply_repetition_penalty` (lines 518-539),
* the `sample` closure and the validation, repetition-context handling and
  decode loop of `generate_step` (lines 1021-1169),
* `StoppingCriteria` (lines 1172-1217),
* the record-emitting loop of `stream_generate` (lines 1284-1324),
* `process_inputs_with_fallback` (lines 889-923).

Modelling conventions: logits are `List ℚ` (one row of the `[1, vocab]`
array); machine floats are rationals, which is exact for the algebraic
claims considered; Python dynamic values that flow into `repetition_penalty`
are an explicit `PyVal` type with Python truthiness; the model forward pass,
`mx.random` sampling primitives, `logsumexp` and the external streaming
detokenizer are oracle parameters (they are external collaborators or
irrational-valued); wall-clock timing, `prompt_tps`, `generation_tps` and
`peak_memory` are not modelled. Effects of `raise` are `Except PyErr`.
-/

/-- Python exception values that the modelled code can raise. -/
inductive PyErr where
  | valueError (msg : String)
  | typeError (msg : String)
  | nameError (msg : String)
  deriving DecidableEq, Repr

/-- A Python dynamic value, as can be passed for `repetition_penalty`. -/
inductive PyVal where
  | none
  | float (q : ℚ)
  | int (n : ℤ)
  | str (s : String)
  deriving DecidableEq, Repr

/-- Python truthiness of a `PyVal` (`if repetition_penalty:`). -/
def pyTruthy : PyVal → Bool
  | PyVal.none => false
  | PyVal.float q => q != 0
  | PyVal.int n => n != 0
  | PyVal.str s => s != ""

/-- Python `v < 0`: numeric comparison, `TypeError` for non-numeric values. -/
def pyLtZero : PyVal → Except PyErr Bool
  | PyVal.float q => Except.ok (decide (q < 0))
  | PyVal.int n => Except.ok (decide (n < 0))
  | PyVal.str _ => Except.error (PyErr.typeError "not supported between instances of str and int")
  | PyVal.none => Except.error (PyErr.typeError "not supported between instances of NoneType and int")

/-- Python `isinstance(v, float)`. -/
def pyIsFloat : PyVal → Bool
  | PyVal.float _ => true
  | _ => false

/-- The numeric value of a float `PyVal` (only consulted on floats). -/
def pyFloatVal : PyVal → ℚ
  | PyVal.float q => q
  | _ => 0

/-- utils.py lines 1073-1078: `if repetition_penalty and (repetition_penalty < 0
or not isinstance(repetition_penalty, float)): raise ValueError(...)`. -/
def checkRepetitionPenalty (rp : PyVal) : Except PyErr Unit :=
  if pyTruthy rp then do
    let lt ← pyLtZero rp
    if lt || !pyIsFloat rp then
      Except.error (PyErr.valueError "repetition_penalty must be a non-negative float")
    else
      Except.ok ()
  else
    Except.ok ()

/-- Penalty applied to one logit position: utils.py line 535-537,
`mx.where(selected_logits < 0, selected_logits * penalty, selected_logits / penalty)`
restricted to positions whose index is a context token id. -/
def penalizeTok (generated_tokens : List ℕ) (penalty : ℚ) (i : ℕ) (x : ℚ) : ℚ :=
  if i ∈ generated_tokens then (if x < 0 then x * penalty else x / penalty) else x

/-- Index-aware map applying `penalizeTok` from position `i` on. -/
def penalizeFrom (generated_tokens : List ℕ) (penalty : ℚ) : ℕ → List ℚ → List ℚ
  | _, [] => []
  | i, x :: xs => penalizeTok generated_tokens penalty i x :: penalizeFrom generated_tokens penalty (i + 1) xs

/-- utils.py lines 518-539, `apply_repetition_penalty`: scatter-update the
logits at the context token ids (duplicate ids write equal values, so a
position-wise update is the same function). -/
def apply_repetition_penalty (logits : List ℚ) (generated_tokens : List ℕ) (penalty : ℚ) : List ℚ :=
  if generated_tokens.length > 0 then penalizeFrom generated_tokens penalty 0 logits else logits

/-- The additive bias at index `i` given the `logit_bias` dict (association
list with distinct keys, as a Python dict has). -/
def biasAt (logit_bias : List (ℕ × ℚ)) (i : ℕ) : ℚ :=
  match logit_bias.find? (fun kv => kv.1 == i) with
  | some kv => kv.2
  | Option.none => 0

/-- Index-aware map adding the logit bias from position `i` on. -/
def addBiasFrom (logit_bias : List (ℕ × ℚ)) : ℕ → List ℚ → List ℚ
  | _, [] => []
  | i, x :: xs => (x + biasAt logit_bias i) :: addBiasFrom logit_bias (i + 1) xs

/-- utils.py lines 1057-1060: `if logit_bias: logits[:, indices] += values`. -/
def applyBias (logit_bias : List (ℕ × ℚ)) (logits : List ℚ) : List ℚ :=
  if logit_bias.isEmpty then logits else addBiasFrom logit_bias 0 logits

/-- First index of the maximum, tail worker: `i` is the index of the head of
`xs` in the full vector, `bi`/`bv` the best index and value so far. -/
def argmaxAux : List ℚ → ℕ → ℕ → ℚ → ℕ
  | [], _, bi, _ => bi
  | x :: xs, i, bi, bv => if bv < x then argmaxAux xs (i + 1) i x else argmaxAux xs (i + 1) bi bv

/-- `mx.argmax` over one logits row: index of the first maximal entry. -/
def argmax : List ℚ → ℕ
  | [] => 0
  | x :: xs => argmaxAux xs 1 0 x

/-- External primitives used by `sample` and `_step` that are random or
irrational-valued: `logsumexp`, `top_p_sampling`, `mx.random.categorical`. -/
structure SamplerOracles where
  lse : List ℚ → ℚ
  topP : List ℚ → ℚ → ℚ → ℕ
  categorical : List ℚ → ℕ

/-- utils.py lines 1056-1071, the `sample` closure of `generate_step`:
bias the logits, compute `logprobs = logits - logsumexp(logits)`, then pick
the token by argmax (temperature 0), nucleus sampling (`0 < top_p < 1`) or
categorical sampling. -/
def sampleFn (o : SamplerOracles) (temperature top_p : ℚ) (logit_bias : List (ℕ × ℚ))
    (logits : List ℚ) : ℕ × List ℚ :=
  let logits := applyBias logit_bias logits
  let logprobs := logits.map (fun x => x - o.lse logits)
  let token :=
    if temperature = 0 then argmax logits
    else if 0 < top_p ∧ top_p < 1 then o.topP logits top_p temperature
    else o.categorical (logits.map (fun x => x * (1 / temperature)))
  (token, logprobs)

/-- Python `lst[-k:]` for `k > 0`: the last `min k (length lst)` elements. -/
def takeLast (k : ℕ) (l : List ℕ) : List ℕ :=
  l.drop (l.length - k)

/-- Python truthiness of `repetition_context_size` (`None` and `0` falsy). -/
def optTruthy : Option ℕ → Bool
  | Option.none => false
  | some n => n != 0

/-- State threaded through `_step`: the token history held by the KV cache
(prompt plus every token fed to the model so far) and the mutable
`repetition_context`. -/
structure StepState where
  history : List ℕ
  repetition_context : List ℕ
  deriving DecidableEq, Repr

/-- Decoding-time sampling parameters of `generate_step`. -/
structure GenParams where
  temperature : ℚ
  top_p : ℚ
  logit_bias : List (ℕ × ℚ)
  repetition_penalty : PyVal
  repetition_context_size : Option ℕ

/-- utils.py lines 1101-1130, `_step`: one forward pass on the new token `y`
(the forward pass is the oracle `modelFn` applied to the full history, which
models the model-plus-KV-cache pair), optional repetition penalty before
sampling, context append, then context trim. -/
def gsStep (modelFn : List ℕ → List ℚ) (o : SamplerOracles) (p : GenParams)
    (st : StepState) (y : ℕ) : (ℕ × List ℚ) × StepState :=
  let history := st.history ++ [y]
  let logits := modelFn history
  let r :=
    if pyTruthy p.repetition_penalty then
      let logits := apply_repetition_penalty logits st.repetition_context (pyFloatVal p.repetition_penalty)
      let yl := sampleFn o p.temperature p.top_p p.logit_bias logits
      (yl, st.repetition_context ++ [yl.1])
    else
      (sampleFn o p.temperature p.top_p p.logit_bias logits, st.repetition_context)
  let ctx :=
    if optTruthy p.repetition_context_size then
      if (p.repetition_context_size.getD 0) < r.2.length then
        takeLast (p.repetition_context_size.getD 0) r.2
      else r.2
    else r.2
  (r.1, ⟨history, ctx⟩)

/-- utils.py lines 1153-1169, the pipelined `while` loop of `generate_step`:
with `fuel` yields remaining, yield the pending pair and advance by one
`_step`.  The loop yields exactly `max_tokens` pairs; the last `_step`
result is computed but never yielded, as in the source. -/
def gsLoop (modelFn : List ℕ → List ℚ) (o : SamplerOracles) (p : GenParams) :
    ℕ → StepState → ℕ × List ℚ → List (ℕ × List ℚ)
  | 0, _, _ => []
  | n + 1, st, yl =>
      let r := gsStep modelFn o p st yl.1
      yl :: gsLoop modelFn o p n r.2 r.1

/-- State after `n` decode steps (ignoring the yielded pairs). -/
def gsRun (modelFn : List ℕ → List ℚ) (o : SamplerOracles) (p : GenParams) :
    ℕ → StepState → ℕ → StepState × ℕ
  | 0, st, y => (st, y)
  | n + 1, st, y =>
      let r := gsStep modelFn o p st y
      gsRun modelFn o p n r.2 r.1.1

/-- utils.py lines 1096-1099: initial repetition context, the prompt ids
trimmed to the last `repetition_context_size` when that is truthy. -/
def initContext (rcs : Option ℕ) (input_ids : List ℕ) : List ℕ :=
  if optTruthy rcs then takeLast (rcs.getD 0) input_ids else input_ids

/-- utils.py lines 1021-1169, `generate_step` as executed on first iteration:
validate `repetition_penalty`, build the initial repetition context, run the
prefill forward pass and sample the first token, then yield `max_tokens`
(token, logprobs) pairs from the decode loop.  Cache creation and the
prefill forward pass are both inside the oracle `modelFn`; the validation
error is raised before either. -/
def generate_step (modelFn : List ℕ → List ℚ) (o : SamplerOracles)
    (input_ids : List ℕ) (max_tokens : ℕ) (p : GenParams) :
    Except PyErr (List (ℕ × List ℚ)) := do
  checkRepetitionPenalty p.repetition_penalty
  let ctx0 := initContext p.repetition_context_size input_ids
  let logits := modelFn input_ids
  let yl := sampleFn o p.temperature p.top_p p.logit_bias logits
  Except.ok (gsLoop modelFn o p max_tokens ⟨input_ids, ctx0⟩ yl)

/-- Python int-or-list-of-ints, as accepted for EOS token ids. -/
inductive PyIds where
  | int (n : ℤ)
  | list (l : List ℤ)
  deriving DecidableEq, Repr

/-- `if isinstance(eos_token_ids, int): eos_token_ids = [eos_token_ids]`. -/
def normalizeIds : PyIds → List ℤ
  | PyIds.int n => [n]
  | PyIds.list l => l

/-- utils.py lines 1172-1217, `StoppingCriteria`: the active EOS-id list and
the tokenizer's configured `eos_token_ids` (the tokenizer reference is
modelled by the one attribute `reset` reads from it). -/
structure StoppingCriteria where
  eos_token_ids : List ℤ
  tokenizer_eos : PyIds
  deriving DecidableEq, Repr

/-- utils.py lines 1205-1214, `StoppingCriteria.reset`: default the argument
to the tokenizer's configured EOS ids, wrap a bare int in a list, and
replace the active list when it differs. -/
def StoppingCriteria.reset (sc : StoppingCriteria) (ids : Option PyIds) : StoppingCriteria :=
  let e := match ids with
    | some v => v
    | Option.none => sc.tokenizer_eos
  let e := normalizeIds e
  if sc.eos_token_ids ≠ e then { sc with eos_token_ids := e } else sc

/-- utils.py lines 1216-1217, `StoppingCriteria.__call__`: set membership. -/
def StoppingCriteria.isStop (sc : StoppingCriteria) (token : ℤ) : Bool :=
  sc.eos_token_ids.contains token

/-- The streaming detokenizer, an external collaborator: `seg added` is
`last_segment` after `add_token` has been called on the tokens `added` since
`reset`, and `finalSeg added` is `last_segment` after `finalize()`. -/
structure Detokenizer where
  seg : List ℕ → String
  finalSeg : List ℕ → String

/-- One `GenerationResult` record (utils.py lines 84-93); the wall-clock
throughput and peak-memory fields are not modelled. -/
structure GenerationResult where
  text : String
  token : ℕ
  logprobs : List ℚ
  prompt_tokens : ℕ
  generation_tokens : ℕ
  deriving DecidableEq, Repr

/-- utils.py lines 1288-1324, the record loop of `stream_generate`: walk the
(token, logprobs) stream with its enumerate index `n`; on a stop token break
to the finalize record without detokenizing it; otherwise feed the token to
the detokenizer and emit a step record.  After the loop the finalize record
reads the loop variables of the last iteration; if no iteration ran they are
unbound and Python raises a NameError.  Returns the records together with
the list of tokens fed to the detokenizer. -/
def sgLoop (dt : Detokenizer) (is_stop : ℕ → Bool) (prompt_tokens : ℕ) :
    List (ℕ × List ℚ) → ℕ → List ℕ → Option (ℕ × List ℚ × ℕ) →
    Except PyErr (List GenerationResult × List ℕ)
  | [], _, _, Option.none =>
      Except.error (PyErr.nameError "name token is not defined")
  | [], _, added, some (tok, lp, nl) =>
      Except.ok ([⟨dt.finalSeg added, tok, lp, prompt_tokens, nl + 1⟩], added)
  | (tok, lp) :: rest, n, added, _ =>
      if is_stop tok then
        Except.ok ([⟨dt.finalSeg added, tok, lp, prompt_tokens, n + 1⟩], added)
      else
        let added2 := added ++ [tok]
        match sgLoop dt is_stop prompt_tokens rest (n + 1) added2 (some (tok, lp, n)) with
        | Except.ok r => Except.ok (⟨dt.seg added2, tok, lp, prompt_tokens, n + 1⟩ :: r.1, r.2)
        | Except.error e => Except.error e

/-- utils.py lines 1284-1324, `stream_generate` from the start of the token
loop: the produced stream is the pair list `generate_step` yields. -/
def stream_generate (dt : Detokenizer) (is_stop : ℕ → Bool) (prompt_tokens : ℕ)
    (stream : List (ℕ × List ℚ)) : Except PyErr (List GenerationResult × List ℕ) :=
  sgLoop dt is_stop prompt_tokens stream 0 [] Option.none

/-- utils.py lines 889-923, `process_inputs_with_fallback`: `attempt rt`
models `process_inputs(..., return_tensors=rt)`, failing with the message of
the exception it raises.  On a primary failure with a non-"pt" tensor kind,
retry once with "pt"; a fallback failure is re-raised as a `ValueError`
naming only the fallback error; with "pt" already primary, re-raise naming
the primary error. -/
def process_inputs_with_fallback (attempt : String → Except String ℕ)
    (return_tensors : String) : Except String ℕ :=
  match attempt return_tensors with
  | Except.ok r => Except.ok r
  | Except.error e =>
    if return_tensors ≠ "pt" then
      match attempt "pt" with
      | Except.ok r => Except.ok r
      | Except.error fe => Except.error ("Failed to process inputs with error: " ++ fe)
    else
      Except.error ("Failed to process inputs with error: " ++ e)

/-- `process_inputs_with_fallback` instrumented with the list of tensor
kinds attempted, in call order; the control flow is identical. -/
def processWithFallbackTrace (attempt : String → Except String ℕ)
    (return_tensors : String) : Except String ℕ × List String :=
  match attempt return_tensors with
  | Except.ok r => (Except.ok r, [return_tensors])
  | Except.error e =>
    if return_tensors ≠ "pt" then
      match attempt "pt" with
      | Except.ok r => (Except.ok r, [return_tensors, "pt"])
      | Except.error fe => (Except.error ("Failed to process inputs with error: " ++ fe), [return_tensors, "pt"])
    else
      (Except.error ("Failed to process inputs with error: " ++ e), [return_tensors])

/-- `cs` starts with the pattern `pat`. -/
def leadsWith : List Char → List Char → Bool
  | _, [] => true
  | [], _ :: _ => false
  | c :: cs, d :: ds => c == d && leadsWith cs ds

/-- `pat` occurs somewhere in `cs`. -/
def occursIn (pat : List Char) : List Char → Bool
  | [] => leadsWith [] pat
  | c :: cs => leadsWith (c :: cs) pat || occursIn pat cs

/-- `s` contains `pat` as a substring. -/
def containsSubstr (s pat : String) : Bool :=
  occursIn pat.data s.data

/-- The per-step `GenerationResult` records that the loop of
`stream_generate` emits for a stream segment none of whose tokens stops
generation, starting at enumerate index `n` with `added` tokens already in
the detokenizer. -/
def stepRecs (dt : Detokenizer) (prompt_tokens : ℕ) :
    List (ℕ × List ℚ) → ℕ → List ℕ → List GenerationResult
  | [], _, _ => []
  | (tok, lp) :: rest, n, added =>
      ⟨dt.seg (added ++ [tok]), tok, lp, prompt_tokens, n + 1⟩ ::
        stepRecs dt prompt_tokens rest (n + 1) (added ++ [tok])

/-- The finalize record of `stream_generate`, built from the detokenizer
input `added` and the loop-variable triple (token, logprobs, index) left by
the last iteration. -/
def finalRec (dt : Detokenizer) (prompt_tokens : ℕ) (added : List ℕ)
    (t : ℕ × List ℚ × ℕ) : GenerationResult :=
  ⟨dt.finalSeg added, t.1, t.2.1, prompt_tokens, t.2.2 + 1⟩

/-- The loop-variable triple (token, logprobs, enumerate index) left behind
after iterating over `stream` starting at index `n`, given the triple of the
previous iteration. -/
def lastTriple : List (ℕ × List ℚ) → ℕ → (ℕ × List ℚ × ℕ) → (ℕ × List ℚ × ℕ)
  | [], _, prev => prev
  | (tok, lp) :: rest, n, _ => lastTriple rest (n + 1) (tok, lp, n)

/-- A concrete oracle bundle for closed evaluations. -/
def oZero : SamplerOracles :=
  ⟨fun _ => 0, fun _ _ _ => 0, fun _ => 0⟩

/-- A concrete ten-entry logits row whose unique maximum sits at index 3. -/
def tenLogits : List ℚ :=
  [0, 0, 0, 1, 0, 0, 0, 0, 0, 0]

/-- A concrete detokenizer oracle for closed evaluations. -/
def dtTest : Detokenizer :=
  ⟨fun _ => "a", fun _ => "b"⟩

/-- A concrete length-10 prompt for closed evaluations. -/
def ids10 : List ℕ :=
  [1, 1, 1, 1, 1, 1, 1, 1, 1, 1]

/-! ## Lemmas about the repetition penalty -/

lemma penalizeFrom_getD (ctx : List ℕ) (p : ℚ) (l : List ℚ) :
    ∀ i j, j < l.length →
      (penalizeFrom ctx p i l).getD j 0 = penalizeTok ctx p (i + j) (l.getD j 0) := by
  induction l with
  | nil => intro i j h; simp at h
  | cons x xs ih =>
      intro i j h
      cases j with
      | zero => simp [penalizeFrom]
      | succ j =>
          have hj : j < xs.length := by simp at h; omega
          simp only [penalizeFrom, List.getD_cons_succ]
          rw [ih (i + 1) j hj]
          congr 1
          omega

lemma penalizeFrom_one (ctx : List ℕ) (l : List ℚ) : ∀ i, penalizeFrom ctx 1 i l = l := by
  induction l with
  | nil => intro i; rfl
  | cons x xs ih =>
      intro i
      simp [penalizeFrom, penalizeTok, ih]

lemma apply_repetition_penalty_one (l : List ℚ) (ctx : List ℕ) :
    apply_repetition_penalty l ctx 1 = l := by
  unfold apply_repetition_penalty
  by_cases h : ctx.length > 0 <;> simp [h, penalizeFrom_one]

/-! ## Lemmas about the argmax-based sampler -/

lemma addBiasFrom_length (b : List (ℕ × ℚ)) (l : List ℚ) :
    ∀ i, (addBiasFrom b i l).length = l.length := by
  induction l with
  | nil => intro i; rfl
  | cons x xs ih => intro i; simp [addBiasFrom, ih]

lemma applyBias_length (b : List (ℕ × ℚ)) (l : List ℚ) :
    (applyBias b l).length = l.length := by
  unfold applyBias
  by_cases h : b.isEmpty <;> simp [h, addBiasFrom_length]

lemma argmaxAux_spec (xs : List ℚ) :
    ∀ (i bi : ℕ) (bv : ℚ),
      (argmaxAux xs i bi bv = bi ∧ ∀ k, k < xs.length → xs.getD k 0 ≤ bv) ∨
      (∃ k, k < xs.length ∧ argmaxAux xs i bi bv = i + k ∧ bv < xs.getD k 0 ∧
        (∀ j, j < xs.length → xs.getD j 0 ≤ xs.getD k 0) ∧
        (∀ j, j < k → xs.getD j 0 < xs.getD k 0)) := by
  induction xs with
  | nil =>
      intro i bi bv
      left
      exact ⟨rfl, fun k hk => by simp at hk⟩
  | cons x xs ih =>
      intro i bi bv
      by_cases hx : bv < x
      · right
        rcases ih (i + 1) i x with ⟨heq, hb⟩ | ⟨k, hk, heq, hlt, hub, hstr⟩
        · refine ⟨0, by simp, ?_, by simpa using hx, ?_, ?_⟩
          · simp only [argmaxAux, if_pos hx]
            omega
          · intro j hj
            cases j with
            | zero => simp
            | succ j =>
                have : j < xs.length := by simp at hj; omega
                simpa using hb j this
          · intro j hj; omega
        · refine ⟨k + 1, by simp; omega, ?_, ?_, ?_, ?_⟩
          · simp only [argmaxAux, if_pos hx]
            omega
          · simpa using lt_trans hx hlt
          · intro j hj
            cases j with
            | zero => simpa using le_of_lt hlt
            | succ j =>
                have : j < xs.length := by simp at hj; omega
                simpa using hub j this
          · intro j hj
            cases j with
            | zero => simpa using hlt
            | succ j =>
                have : j < k := by omega
                simpa using hstr j this
      · rcases ih (i + 1) bi bv with ⟨heq, hb⟩ | ⟨k, hk, heq, hlt, hub, hstr⟩
        · left
          refine ⟨by simp only [argmaxAux, if_neg hx]; exact heq, ?_⟩
          intro k hk
          cases k with
          | zero => simpa using le_of_not_lt hx
          | succ k =>
              have : k < xs.length := by simp at hk; omega
              simpa using hb k this
        · right
          refine ⟨k + 1, by simp; omega, ?_, ?_, ?_, ?_⟩
          · simp only [argmaxAux, if_neg hx]
            omega
          · simpa using hlt
          · intro j hj
            cases j with
            | zero => simpa using le_trans (le_of_not_lt hx) (le_of_lt hlt)
            | succ j =>
                have : j < xs.length := by simp at hj; omega
                simpa using hub j this
          · intro j hj
            cases j with
            | zero => simpa using lt_of_le_of_lt (le_of_not_lt hx) hlt
            | succ j =>
                have : j < k := by omega
                simpa using hstr j this

lemma argmax_spec (l : List ℚ) (h : l ≠ []) :
    argmax l < l.length ∧
      (∀ j, j < l.length → l.getD j 0 ≤ l.getD (argmax l) 0) ∧
      (∀ j, j < argmax l → l.getD j 0 < l.getD (argmax l) 0) := by
  cases l with
  | nil => exact absurd rfl h
  | cons x xs =>
      have hdef : argmax (x :: xs) = argmaxAux xs 1 0 x := rfl
      rcases argmaxAux_spec xs 1 0 x with ⟨heq, hb⟩ | ⟨k, hk, heq, hlt, hub, hstr⟩
      · rw [hdef, heq]
        refine ⟨by simp, ?_, ?_⟩
        · intro j hj
          cases j with
          | zero => simp
          | succ j =>
              have : j < xs.length := by simp at hj; omega
              simpa using hb j this
        · intro j hj; omega
      · rw [hdef, heq]
        have h1k : 1 + k = k + 1 := by omega
        rw [h1k]
        refine ⟨by simp; omega, ?_, ?_⟩
        · intro j hj
          cases j with
          | zero => simpa using le_of_lt hlt
          | succ j =>
              have : j < xs.length := by simp at hj; omega
              simpa using hub j this
        · intro j hj
          cases j with
          | zero => simpa using hlt
          | succ j =>
              have : j < k := by omega
              simpa using hstr j this

lemma sampleFn_temp0_fst (o : SamplerOracles) (top_p : ℚ) (b : List (ℕ × ℚ)) (l : List ℚ) :
    (sampleFn o 0 top_p b l).1 = argmax (applyBias b l) := by
  simp [sampleFn]

/-! ## Claim theorems: repetition penalty, sampler, stopping criteria -/

/-- C6: for every logits vector, token-id context and penalty factor `p > 0`,
`apply_repetition_penalty` scales exactly the logits of token ids present in
the context — a negative logit is multiplied by `p`, a non-negative one is
divided by `p` — leaves all other logits unchanged, and is the identity on an
empty context. -/
theorem apply_repetition_penalty_pointwise (logits : List ℚ) (ctx : List ℕ) (p : ℚ)
    (hp : 0 < p) :
    (∀ j, j < logits.length →
        (apply_repetition_penalty logits ctx p).getD j 0 =
          if j ∈ ctx then
            (if logits.getD j 0 < 0 then logits.getD j 0 * p else logits.getD j 0 / p)
          else logits.getD j 0) ∧
      apply_repetition_penalty logits [] p = logits := by
  refine ⟨fun j hj => ?_, by simp [apply_repetition_penalty]⟩
  unfold apply_repetition_penalty
  by_cases h : ctx.length > 0
  · rw [if_pos h, penalizeFrom_getD ctx p logits 0 j hj]
    simp [penalizeTok]
  · have hctx : ctx = [] := by cases ctx <;> simp_all
    subst hctx
    simp

theorem apply_repetition_penalty_pointwise_witness :
    (0:ℚ) < 2 ∧
      (apply_repetition_penalty [(1:ℚ), -2] [1] 2).getD 1 0 =
        (if 1 ∈ [1] then
            (if ([(1:ℚ), -2].getD 1 0) < 0 then [(1:ℚ), -2].getD 1 0 * 2
             else [(1:ℚ), -2].getD 1 0 / 2)
          else [(1:ℚ), -2].getD 1 0) :=
  ⟨by norm_num,
    (apply_repetition_penalty_pointwise [(1:ℚ), -2] [1] 2 (by norm_num)).1 1 (by norm_num)⟩

/-- C7: for every logits vector and every non-empty repetition context,
`apply_repetition_penalty` with `penalty = 1` is the identity. -/
theorem apply_repetition_penalty_one_id (logits : List ℚ) (ctx : List ℕ) (h : ctx ≠ []) :
    apply_repetition_penalty logits ctx 1 = logits :=
  apply_repetition_penalty_one logits ctx

theorem apply_repetition_penalty_one_id_witness :
    apply_repetition_penalty [(5:ℚ), -3, 7] [2, 0] 1 = [(5:ℚ), -3, 7] :=
  apply_repetition_penalty_one_id [(5:ℚ), -3, 7] [2, 0] (by simp)

/-- C8: with `temperature = 0` the sampler returns the arg-max of the
bias-adjusted logits, ties broken by the lowest index, and the chosen token
does not depend on the random-sampling oracles (determinism across repeated
calls): the first conjunct says any two oracle bundles pick the same token,
the rest characterise that token as the first maximum of the biased
logits. -/
theorem sample_temp0_argmax (o₁ o₂ : SamplerOracles) (top_p : ℚ) (bias : List (ℕ × ℚ))
    (logits : List ℚ) (h : logits ≠ []) :
    (sampleFn o₂ 0 top_p bias logits).1 = (sampleFn o₁ 0 top_p bias logits).1 ∧
      (sampleFn o₁ 0 top_p bias logits).1 < (applyBias bias logits).length ∧
      (∀ j, j < (applyBias bias logits).length →
          (applyBias bias logits).getD j 0 ≤
            (applyBias bias logits).getD ((sampleFn o₁ 0 top_p bias logits).1) 0) ∧
      (∀ j, j < (sampleFn o₁ 0 top_p bias logits).1 →
          (applyBias bias logits).getD j 0 <
            (applyBias bias logits).getD ((sampleFn o₁ 0 top_p bias logits).1) 0) := by
  have hne : applyBias bias logits ≠ [] := by
    intro hcon
    have := applyBias_length bias logits
    rw [hcon] at this
    cases logits with
    | nil => exact h rfl
    | cons a l => simp at this
  rw [sampleFn_temp0_fst o₁ top_p bias logits, sampleFn_temp0_fst o₂ top_p bias logits]
  exact ⟨rfl, argmax_spec (applyBias bias logits) hne⟩

theorem sample_temp0_argmax_witness :
    (sampleFn oZero 0 1 [] [(1:ℚ), 3, 3]).1 < (applyBias [] [(1:ℚ), 3, 3]).length :=
  (sample_temp0_argmax oZero oZero 1 [] [(1:ℚ), 3, 3] (by simp)).2.1

/-- C9: `StoppingCriteria.reset ids` replaces the active EOS-id list outright
with the given ids (a bare int wrapped in a list); called without ids it
replaces the list with the tokenizer's configured EOS ids. -/
theorem stoppingCriteria_reset_replaces (sc : StoppingCriteria) (v : PyIds) :
    (sc.reset (some v)).eos_token_ids = normalizeIds v ∧
      (sc.reset Option.none).eos_token_ids = normalizeIds sc.tokenizer_eos := by
  constructor
  · by_cases h : sc.eos_token_ids = normalizeIds v <;>
      simp [StoppingCriteria.reset, h]
  · by_cases h : sc.eos_token_ids = normalizeIds sc.tokenizer_eos <;>
      simp [StoppingCriteria.reset, h]

/-! ## Lemmas for the penalty-equal-one no-op at the generate-step level -/

lemma gsStep_penalty_one (m : List ℕ → List ℚ) (o : SamplerOracles) (t tp : ℚ)
    (lb : List (ℕ × ℚ)) (rcs : Option ℕ) (st₁ st₂ : StepState) (y : ℕ)
    (hh : st₁.history = st₂.history) :
    (gsStep m o ⟨t, tp, lb, PyVal.float 1, rcs⟩ st₁ y).1 =
        (gsStep m o ⟨t, tp, lb, PyVal.none, rcs⟩ st₂ y).1 ∧
      (gsStep m o ⟨t, tp, lb, PyVal.float 1, rcs⟩ st₁ y).2.history =
        (gsStep m o ⟨t, tp, lb, PyVal.none, rcs⟩ st₂ y).2.history := by
  have h1 : pyTruthy (PyVal.float 1) = true := by
    simp [pyTruthy]
  simp [gsStep, hh, h1, pyTruthy, pyFloatVal, apply_repetition_penalty_one]

lemma gsLoop_penalty_one (m : List ℕ → List ℚ) (o : SamplerOracles) (t tp : ℚ)
    (lb : List (ℕ × ℚ)) (rcs : Option ℕ) :
    ∀ (n : ℕ) (st₁ st₂ : StepState) (yl : ℕ × List ℚ), st₁.history = st₂.history →
      gsLoop m o ⟨t, tp, lb, PyVal.float 1, rcs⟩ n st₁ yl =
        gsLoop m o ⟨t, tp, lb, PyVal.none, rcs⟩ n st₂ yl := by
  intro n
  induction n with
  | zero => intro st₁ st₂ yl hh; rfl
  | succ n ih =>
      intro st₁ st₂ yl hh
      have h := gsStep_penalty_one m o t tp lb rcs st₁ st₂ yl.1 hh
      simp only [gsLoop]
      rw [h.1]
      exact congrArg (List.cons yl) (ih _ _ _ h.2)

/-! ## Claim theorems: input-processing fallback and penalty validation -/

/-- C4 counterexample: when processing fails under the primary tensor
representation ("mlx", error E1) and the "pt" retry also fails (error E2),
the raised message names only the fallback error E2 and does not mention the
primary error E1 — the claim that it names both underlying errors is
false. -/
theorem fallback_message_omits_primary_error :
    process_inputs_with_fallback
        (fun rt => Except.error (if rt = "pt" then "E2" else "E1")) "mlx" =
      Except.error "Failed to process inputs with error: E2" ∧
    containsSubstr "Failed to process inputs with error: E2" "E2" = true ∧
    containsSubstr "Failed to process inputs with error: E2" "E1" = false :=
  ⟨rfl, by decide, by decide⟩

/-- C4 (amended): if processing fails under a primary tensor representation
other than "pt", it is retried exactly once with "pt"; if the retry also
fails, the surfaced processing-failure condition names the fallback error
only (the primary error is not part of the raised message); when the primary
representation is already "pt", no retry occurs and the condition names the
primary error. -/
theorem fallback_retry_and_message (attempt : String → Except String ℕ)
    (rt e fe : String) (hrt : rt ≠ "pt")
    (h1 : attempt rt = Except.error e) (h2 : attempt "pt" = Except.error fe) :
    process_inputs_with_fallback attempt rt =
        Except.error ("Failed to process inputs with error: " ++ fe) ∧
      processWithFallbackTrace attempt rt =
        (Except.error ("Failed to process inputs with error: " ++ fe), [rt, "pt"]) ∧
      (∀ (attempt2 : String → Except String ℕ) (e2 : String),
          attempt2 "pt" = Except.error e2 →
          processWithFallbackTrace attempt2 "pt" =
            (Except.error ("Failed to process inputs with error: " ++ e2), ["pt"])) := by
  refine ⟨?_, ?_, ?_⟩
  · simp [process_inputs_with_fallback, h1, h2, hrt]
  · simp [processWithFallbackTrace, h1, h2, hrt]
  · intro attempt2 e2 h
    simp [processWithFallbackTrace, h]

theorem fallback_retry_and_message_witness :
    process_inputs_with_fallback
        (fun rt => Except.error (if rt = "pt" then "B" else "A")) "mlx" =
      Except.error ("Failed to process inputs with error: " ++ "B") :=
  (fallback_retry_and_message
      (fun rt => Except.error (if rt = "pt" then "B" else "A"))
      "mlx" "A" "B" (by decide) rfl rfl).1

/-- C3 counterexample: the empty string is a non-numeric `repetition_penalty`,
yet `generate_step` accepts it outright (Python falsiness short-circuits the
validation), and a non-empty string fails with a `TypeError` from the
comparison, not a `ValueError` — so "every negative or non-numeric value
fails with ValueError" is false. -/
theorem nonnumeric_penalty_not_rejected :
    (generate_step (fun _ => tenLogits) oZero [3] 1
        ⟨0, 1, [], PyVal.str "", Option.none⟩).isOk = true ∧
    checkRepetitionPenalty (PyVal.str "") = Except.ok () ∧
    checkRepetitionPenalty (PyVal.str "high") =
      Except.error (PyErr.typeError "not supported between instances of str and int") ∧
    checkRepetitionPenalty (PyVal.int 1) =
      Except.error (PyErr.valueError "repetition_penalty must be a non-negative float") :=
  ⟨by decide, rfl, rfl, rfl⟩

/-- C3 (amended): every truthy negative numeric `repetition_penalty` (float
or int) makes `generate_step` fail with the invalid-argument `ValueError`,
and every truthy non-float numeric is rejected the same way, independently
of the model oracle and before any forward pass or cache use (the result is
the same error for every `modelFn` and every token budget); a truthy
non-numeric value fails instead with a `TypeError` raised by the order
comparison; `repetition_penalty = 1.0` is accepted and is a legal no-op, in
that generation produces exactly the pairs produced with no penalty
configured. -/
theorem penalty_validation_behavior :
    (∀ (m : List ℕ → List ℚ) (o : SamplerOracles) (ids : List ℕ) (mt : ℕ)
        (t tp : ℚ) (lb : List (ℕ × ℚ)) (rcs : Option ℕ) (q : ℚ), q < 0 →
        generate_step m o ids mt ⟨t, tp, lb, PyVal.float q, rcs⟩ =
          Except.error (PyErr.valueError "repetition_penalty must be a non-negative float")) ∧
    (∀ (m : List ℕ → List ℚ) (o : SamplerOracles) (ids : List ℕ) (mt : ℕ)
        (t tp : ℚ) (lb : List (ℕ × ℚ)) (rcs : Option ℕ) (z : ℤ), z ≠ 0 →
        generate_step m o ids mt ⟨t, tp, lb, PyVal.int z, rcs⟩ =
          Except.error (PyErr.valueError "repetition_penalty must be a non-negative float")) ∧
    (∀ (m : List ℕ → List ℚ) (o : SamplerOracles) (ids : List ℕ) (mt : ℕ)
        (t tp : ℚ) (lb : List (ℕ × ℚ)) (rcs : Option ℕ) (s : String), s ≠ "" →
        generate_step m o ids mt ⟨t, tp, lb, PyVal.str s, rcs⟩ =
          Except.error (PyErr.typeError "not supported between instances of str and int")) ∧
    (∀ (m : List ℕ → List ℚ) (o : SamplerOracles) (ids : List ℕ) (mt : ℕ)
        (t tp : ℚ) (lb : List (ℕ × ℚ)) (rcs : Option ℕ),
        generate_step m o ids mt ⟨t, tp, lb, PyVal.float 1, rcs⟩ =
          generate_step m o ids mt ⟨t, tp, lb, PyVal.none, rcs⟩) := by
  refine ⟨?_, ?_, ?_, ?_⟩
  · intro m o ids mt t tp lb rcs q hq
    have hq0 : q ≠ 0 := ne_of_lt hq
    simp only [generate_step, checkRepetitionPenalty, pyTruthy, pyLtZero, pyIsFloat, hq0, hq,
      bne_self_eq_false, bne_iff_ne, ne_eq, not_false_eq_true, if_true,
      decide_eq_true_eq]
    rfl
  · intro m o ids mt t tp lb rcs z hz
    simp only [generate_step, checkRepetitionPenalty, pyTruthy, pyLtZero, pyIsFloat, hz,
      bne_iff_ne, ne_eq, not_false_eq_true, if_true]
    cases hlt : decide (z < 0) <;> rfl
  · intro m o ids mt t tp lb rcs s hs
    simp only [generate_step, checkRepetitionPenalty, pyTruthy, pyLtZero, hs,
      bne_iff_ne, ne_eq, not_false_eq_true, if_true]
    rfl
  · intro m o ids mt t tp lb rcs
    have hok : checkRepetitionPenalty (PyVal.float 1) = Except.ok () := rfl
    simp only [generate_step, hok]
    exact congrArg Except.ok (gsLoop_penalty_one m o t tp lb rcs mt _ _ _ rfl)

theorem penalty_validation_behavior_witness :
    generate_step (fun _ => tenLogits) oZero [3] 1 ⟨0, 1, [], PyVal.float (-2), Option.none⟩ =
        Except.error (PyErr.valueError "repetition_penalty must be a non-negative float") ∧
      generate_step (fun _ => tenLogits) oZero [3] 1 ⟨0, 1, [], PyVal.int 2, Option.none⟩ =
        Except.error (PyErr.valueError "repetition_penalty must be a non-negative float") ∧
      generate_step (fun _ => tenLogits) oZero [3] 1 ⟨0, 1, [], PyVal.str "high", Option.none⟩ =
        Except.error (PyErr.typeError "not supported between instances of str and int") ∧
      generate_step (fun _ => tenLogits) oZero [3] 1 ⟨0, 1, [], PyVal.float 1, Option.none⟩ =
        generate_step (fun _ => tenLogits) oZero [3] 1 ⟨0, 1, [], PyVal.none, Option.none⟩ :=
  ⟨penalty_validation_behavior.1 _ _ _ _ _ _ _ _ (-2) (by norm_num),
    penalty_validation_behavior.2.1 _ _ _ _ _ _ _ _ 2 (by norm_num),
    penalty_validation_behavior.2.2.1 _ _ _ _ _ _ _ _ "high" (by decide),
    penalty_validation_behavior.2.2.2 _ _ _ _ _ _ _ _⟩

/-! ## Lemmas about the record loop of stream_generate -/

lemma stepRecs_length (dt : Detokenizer) (pt : ℕ) :
    ∀ (s : List (ℕ × List ℚ)) (n : ℕ) (added : List ℕ),
      (stepRecs dt pt s n added).length = s.length := by
  intro s
  induction s with
  | nil => intro n added; rfl
  | cons hd rest ih =>
      intro n added
      obtain ⟨tok, lp⟩ := hd
      simp [stepRecs, ih]

lemma lastTriple_idx :
    ∀ (s : List (ℕ × List ℚ)) (n : ℕ) (prev : ℕ × List ℚ × ℕ), s ≠ [] →
      (lastTriple s n prev).2.2 = n + s.length - 1 := by
  intro s
  induction s with
  | nil => intro n prev h; exact absurd rfl h
  | cons hd rest ih =>
      intro n prev h
      obtain ⟨tok, lp⟩ := hd
      cases rest with
      | nil => simp [lastTriple]
      | cons hd2 rest2 =>
          have hrec := ih (n + 1) (tok, lp, n) (by simp)
          simp only [lastTriple] at hrec ⊢
          rw [hrec]
          simp only [List.length_cons]
          omega

lemma stepRecs_text (dt : Detokenizer) (pt : ℕ) :
    ∀ (s : List (ℕ × List ℚ)) (n : ℕ) (added : List ℕ) (r : GenerationResult),
      r ∈ stepRecs dt pt s n added →
      ∃ k, r.text = dt.seg (added ++ (s.map Prod.fst).take k) := by
  intro s
  induction s with
  | nil => intro n added r hr; simp [stepRecs] at hr
  | cons hd rest ih =>
      intro n added r hr
      obtain ⟨tok, lp⟩ := hd
      simp only [stepRecs, List.mem_cons] at hr
      rcases hr with hr | hr
      · exact ⟨1, by simp [hr]⟩
      · obtain ⟨k, hk⟩ := ih (n + 1) (added ++ [tok]) r hr
        refine ⟨k + 1, ?_⟩
        rw [hk]
        simp [List.append_assoc]

lemma sgLoop_stop_split (dt : Detokenizer) (is_stop : ℕ → Bool) (pt : ℕ)
    (post : List (ℕ × List ℚ)) (t : ℕ) (lp : List ℚ) (ht : is_stop t = true) :
    ∀ (pre : List (ℕ × List ℚ)) (n : ℕ) (added : List ℕ)
      (prev : Option (ℕ × List ℚ × ℕ)),
      (∀ x ∈ pre, is_stop x.1 = false) →
      sgLoop dt is_stop pt (pre ++ (t, lp) :: post) n added prev =
        Except.ok (stepRecs dt pt pre n added ++
            [⟨dt.finalSeg (added ++ pre.map Prod.fst), t, lp, pt, n + pre.length + 1⟩],
          added ++ pre.map Prod.fst) := by
  intro pre
  induction pre with
  | nil =>
      intro n added prev hpre
      simp [sgLoop, ht, stepRecs]
  | cons hd rest ih =>
      intro n added prev hpre
      obtain ⟨tok, lp2⟩ := hd
      have htok : is_stop tok = false := hpre (tok, lp2) (by simp)
      have hrest : ∀ x ∈ rest, is_stop x.1 = false := fun x hx => hpre x (by simp [hx])
      simp only [List.cons_append, sgLoop, htok, Bool.false_eq_true, if_false,
        List.append_eq]
      rw [ih (n + 1) (added ++ [tok]) (some (tok, lp2, n)) hrest]
      have harith : n + 1 + rest.length = n + (rest.length + 1) := by omega
      simp [stepRecs, List.append_assoc, harith]

lemma sgLoop_noStop (dt : Detokenizer) (is_stop : ℕ → Bool) (pt : ℕ) :
    ∀ (stream : List (ℕ × List ℚ)) (n : ℕ) (added : List ℕ)
      (tok0 : ℕ) (lp0 : List ℚ) (n0 : ℕ),
      (∀ x ∈ stream, is_stop x.1 = false) →
      sgLoop dt is_stop pt stream n added (some (tok0, lp0, n0)) =
        Except.ok (stepRecs dt pt stream n added ++
            [finalRec dt pt (added ++ stream.map Prod.fst)
              (lastTriple stream n (tok0, lp0, n0))],
          added ++ stream.map Prod.fst) := by
  intro stream
  induction stream with
  | nil =>
      intro n added tok0 lp0 n0 hns
      simp [sgLoop, stepRecs, finalRec, lastTriple]
  | cons hd rest ih =>
      intro n added tok0 lp0 n0 hns
      obtain ⟨tok, lp⟩ := hd
      have htok : is_stop tok = false := hns (tok, lp) (by simp)
      have hrest : ∀ x ∈ rest, is_stop x.1 = false := fun x hx => hns x (by simp [hx])
      simp only [sgLoop, htok, Bool.false_eq_true, if_false]
      rw [ih (n + 1) (added ++ [tok]) tok lp n hrest]
      simp [stepRecs, finalRec, lastTriple, List.append_assoc]

lemma stream_generate_noStop_eq (dt : Detokenizer) (is_stop : ℕ → Bool) (pt : ℕ)
    (tok : ℕ) (lp : List ℚ) (rest : List (ℕ × List ℚ))
    (h : ∀ x ∈ (tok, lp) :: rest, is_stop x.1 = false) :
    stream_generate dt is_stop pt ((tok, lp) :: rest) =
      Except.ok (stepRecs dt pt ((tok, lp) :: rest) 0 [] ++
          [finalRec dt pt (((tok, lp) :: rest).map Prod.fst)
            (lastTriple ((tok, lp) :: rest) 0 (0, [], 0))],
        ((tok, lp) :: rest).map Prod.fst) := by
  have htok : is_stop tok = false := h (tok, lp) (by simp)
  have hrest : ∀ x ∈ rest, is_stop x.1 = false := fun x hx => h x (by simp [hx])
  simp only [stream_generate, sgLoop, htok, Bool.false_eq_true, if_false]
  rw [sgLoop_noStop dt is_stop pt rest 1 ([] ++ [tok]) tok lp 0 hrest]
  simp [stepRecs, lastTriple]

lemma gsLoop_length (m : List ℕ → List ℚ) (o : SamplerOracles) (p : GenParams) :
    ∀ (n : ℕ) (st : StepState) (yl : ℕ × List ℚ), (gsLoop m o p n st yl).length = n := by
  intro n
  induction n with
  | zero => intro st yl; rfl
  | succ n ih => intro st yl; simp [gsLoop, ih]

/-! ## Claim theorems: streaming record loop -/

/-- C1: when the produced token stream is `pre` (no stop matches) followed by
a stop token `t`, `stream_generate` evaluates the stopping criteria before
detokenization and before surfacing: the tokens fed to the detokenizer are
exactly the tokens of `pre` (returned as the second component), the number
of per-step records equals the count of tokens strictly before `t`, nothing
after `t` is ever processed, and every emitted text is computed by the
detokenizer from a prefix of the pre-stop tokens — so the stop token is
never included in any emitted text.  The finalize record re-reports `t` and
index `pre.length` in its token and counter fields, as the Python loop
variables hold them at the break. -/
theorem stream_generate_stop_semantics (dt : Detokenizer) (is_stop : ℕ → Bool) (pt : ℕ)
    (pre post : List (ℕ × List ℚ)) (t : ℕ) (lp : List ℚ)
    (hpre : ∀ x ∈ pre, is_stop x.1 = false) (ht : is_stop t = true) :
    stream_generate dt is_stop pt (pre ++ (t, lp) :: post) =
        Except.ok (stepRecs dt pt pre 0 [] ++
            [finalRec dt pt (pre.map Prod.fst) (t, lp, pre.length)],
          pre.map Prod.fst) ∧
      (stepRecs dt pt pre 0 []).length = pre.length ∧
      (∀ r ∈ stepRecs dt pt pre 0 [] ++
          [finalRec dt pt (pre.map Prod.fst) (t, lp, pre.length)],
        (∃ k, r.text = dt.seg ((pre.map Prod.fst).take k)) ∨
          r.text = dt.finalSeg (pre.map Prod.fst)) := by
  refine ⟨?_, stepRecs_length dt pt pre 0 [], ?_⟩
  · have h := sgLoop_stop_split dt is_stop pt post t lp ht pre 0 [] Option.none hpre
    simp only [stream_generate]
    rw [h]
    simp [finalRec]
  · intro r hr
    rcases List.mem_append.mp hr with hr | hr
    · left
      obtain ⟨k, hk⟩ := stepRecs_text dt pt pre 0 [] r hr
      exact ⟨k, by simpa using hk⟩
    · right
      simp only [List.mem_singleton] at hr
      rw [hr]
      rfl

theorem stream_generate_stop_semantics_witness :
    stream_generate dtTest (fun tok => tok == 7) 3
        (([(1, []), (2, [])] : List (ℕ × List ℚ)) ++ (7, []) :: []) =
      Except.ok (stepRecs dtTest 3 ([(1, []), (2, [])] : List (ℕ × List ℚ)) 0 [] ++
          [finalRec dtTest 3 (([(1, []), (2, [])] : List (ℕ × List ℚ)).map Prod.fst)
            (7, [], ([(1, []), (2, [])] : List (ℕ × List ℚ)).length)],
        ([(1, []), (2, [])] : List (ℕ × List ℚ)).map Prod.fst) :=
  (stream_generate_stop_semantics dtTest (fun tok => tok == 7) 3
      ([(1, []), (2, [])] : List (ℕ × List ℚ)) [] 7 [] (by decide) (by decide)).1

/-- C2: with `max_tokens = 5`, a prompt of length 10 and a stopping criteria
that never matches, `generate_step` yields a stream of exactly 5 pairs, and
`stream_generate` over that stream emits exactly 5 per-step records followed
by exactly 1 finalize record whose `generation_tokens` field equals 5. -/
theorem stream_generate_five_records (m : List ℕ → List ℚ) (o : SamplerOracles)
    (dt : Detokenizer) (input_ids : List ℕ) (h10 : input_ids.length = 10)
    (t tp : ℚ) (lb : List (ℕ × ℚ)) (rcs : Option ℕ) (stream : List (ℕ × List ℚ))
    (hstream : generate_step m o input_ids 5 ⟨t, tp, lb, PyVal.none, rcs⟩ =
      Except.ok stream) :
    stream.length = 5 ∧
      stream_generate dt (fun _ => false) input_ids.length stream =
        Except.ok (stepRecs dt input_ids.length stream 0 [] ++
            [finalRec dt input_ids.length (stream.map Prod.fst)
              (lastTriple stream 0 (0, [], 0))],
          stream.map Prod.fst) ∧
      (stepRecs dt input_ids.length stream 0 []).length = 5 ∧
      (finalRec dt input_ids.length (stream.map Prod.fst)
          (lastTriple stream 0 (0, [], 0))).generation_tokens = 5 := by
  have hget : generate_step m o input_ids 5 ⟨t, tp, lb, PyVal.none, rcs⟩ =
      Except.ok (gsLoop m o ⟨t, tp, lb, PyVal.none, rcs⟩ 5
        ⟨input_ids, initContext rcs input_ids⟩ (sampleFn o t tp lb (m input_ids))) := rfl
  rw [hget] at hstream
  have hlen : stream.length = 5 := by
    have := gsLoop_length m o ⟨t, tp, lb, PyVal.none, rcs⟩ 5
      ⟨input_ids, initContext rcs input_ids⟩ (sampleFn o t tp lb (m input_ids))
    cases hstream
    exact this
  refine ⟨hlen, ?_, ?_, ?_⟩
  · cases hs : stream with
    | nil => rw [hs] at hlen; simp at hlen
    | cons hd rest =>
        obtain ⟨tok, lp⟩ := hd
        rw [← hs]
        rw [hs]
        exact stream_generate_noStop_eq dt (fun _ => false) input_ids.length tok lp rest
          (fun x _ => rfl)
  · rw [stepRecs_length dt input_ids.length stream 0 [], hlen]
  · have hne : stream ≠ [] := by
      intro hcon; rw [hcon] at hlen; simp at hlen
    have := lastTriple_idx stream 0 (0, [], 0) hne
    simp only [finalRec]
    rw [this, hlen]

theorem stream_generate_five_records_witness :
    (gsLoop (fun _ => tenLogits) oZero ⟨0, 1, [], PyVal.none, Option.none⟩ 5
        ⟨ids10, initContext Option.none ids10⟩
        (sampleFn oZero 0 1 [] ((fun _ => tenLogits) ids10))).length = 5 :=
  (stream_generate_five_records (fun _ => tenLogits) oZero dtTest ids10 (by decide)
      0 1 [] Option.none
      (gsLoop (fun _ => tenLogits) oZero ⟨0, 1, [], PyVal.none, Option.none⟩ 5
        ⟨ids10, initContext Option.none ids10⟩
        (sampleFn oZero 0 1 [] ((fun _ => tenLogits) ids10)))
      rfl).1

/-- C10: with `max_tokens = 0` the decode loop of `generate_step` yields no
(token, logprobs) pair at all, and on an empty stream `stream_generate`
yields no `GenerationResult` — not even a finalize record: building the
final record reads the loop variables (`token`, `logprobs`, `n`,
`prompt_tps`), which were never bound, so the generator raises an
unbound-variable `NameError` instead. -/
theorem stream_generate_empty_stream (m : List ℕ → List ℚ) (o : SamplerOracles)
    (dt : Detokenizer) (is_stop : ℕ → Bool) (input_ids : List ℕ) (pt : ℕ)
    (t tp : ℚ) (lb : List (ℕ × ℚ)) (rcs : Option ℕ) :
    generate_step m o input_ids 0 ⟨t, tp, lb, PyVal.none, rcs⟩ = Except.ok [] ∧
      stream_generate dt is_stop pt [] =
        Except.error (PyErr.nameError "name token is not defined") :=
  ⟨rfl, rfl⟩

/-! ## Lemmas about the repetition-context bound -/

lemma takeLast_length_le (k : ℕ) (l : List ℕ) : (takeLast k l).length ≤ k := by
  simp only [takeLast, List.length_drop]
  omega

lemma initContext_length_le (k : ℕ) (hk : k ≠ 0) (l : List ℕ) :
    (initContext (some k) l).length ≤ k := by
  have hopt : optTruthy (some k) = true := by simp [optTruthy, hk]
  simp only [initContext, hopt, if_true, Option.getD_some]
  exact takeLast_length_le k l

lemma gsStep_ctx_le (m : List ℕ → List ℚ) (o : SamplerOracles) (t tp : ℚ)
    (lb : List (ℕ × ℚ)) (rp : PyVal) (k : ℕ) (hk : k ≠ 0) (st : StepState) (y : ℕ)
    (h : st.repetition_context.length ≤ k) :
    ((gsStep m o ⟨t, tp, lb, rp, some k⟩ st y).2).repetition_context.length ≤ k := by
  have hopt : optTruthy (some k) = true := by simp [optTruthy, hk]
  simp only [gsStep, hopt, if_true, Option.getD_some]
  by_cases hp : pyTruthy rp <;>
    simp only [hp, if_true, Bool.false_eq_true, if_false] <;>
    split_ifs with hlt <;>
    simp_all [takeLast_length_le]

lemma gsRun_ctx_le (m : List ℕ → List ℚ) (o : SamplerOracles) (t tp : ℚ)
    (lb : List (ℕ × ℚ)) (rp : PyVal) (k : ℕ) (hk : k ≠ 0) :
    ∀ (n : ℕ) (st : StepState) (y : ℕ), st.repetition_context.length ≤ k →
      ((gsRun m o ⟨t, tp, lb, rp, some k⟩ n st y).1).repetition_context.length ≤ k := by
  intro n
  induction n with
  | zero => intro st y h; exact h
  | succ n ih =>
      intro st y h
      simp only [gsRun]
      exact ih _ _ (gsStep_ctx_le m o t tp lb rp k hk st y h)

/-! ## Claim theorems: repetition-context invariant -/

/-- C5 counterexample: `repetition_context_size = 0` is a set value, yet it
is Python-falsy, so neither the initial trim nor the per-step trim ever
runs: starting from prompt `[3]` the context at the first penalty
application is `[3]` (length 1 > 0) and after one decode step it is
`[3, 3]` (length 2 > 0) — the claimed bound "length never exceeds
repetition_context_size when set" fails for the set value 0. -/
theorem repetition_context_size_zero_violation :
    (gsRun (fun _ => tenLogits) oZero ⟨0, 1, [], PyVal.float 1, some 0⟩ 1
        ⟨[3], initContext (some 0) [3]⟩ 3).1.repetition_context = [3, 3] ∧
      ¬((gsRun (fun _ => tenLogits) oZero ⟨0, 1, [], PyVal.float 1, some 0⟩ 1
          ⟨[3], initContext (some 0) [3]⟩ 3).1.repetition_context.length ≤ 0) := by
  have hpt : pyTruthy (PyVal.float 1) = true := by decide
  have hone : apply_repetition_penalty tenLogits [3] (pyFloatVal (PyVal.float 1)) = tenLogits :=
    apply_repetition_penalty_one tenLogits [3]
  have hctx : (gsRun (fun _ => tenLogits) oZero ⟨0, 1, [], PyVal.float 1, some 0⟩ 1
      ⟨[3], initContext (some 0) [3]⟩ 3).1.repetition_context = [3, 3] := by
    have hic : initContext (some 0) ([3] : List ℕ) = [3] := rfl
    simp only [gsRun, gsStep, hic, hpt, if_true, hone]
    decide
  exact ⟨hctx, by rw [hctx]; decide⟩

/-- C5 (amended): throughout a generation session with
`repetition_context_size` set to a positive value `k`, the repetition
context reachable at every penalty application (the state after any number
of decode steps, starting from the trimmed initial context) has length at
most `k`; and the context is FIFO-trimmed: with size 2, context `[3, 9]`
and new sampled token `3`, the step leaves the context `[9, 3]` — oldest
dropped, new token appended — before the next penalty application. -/
theorem repetition_context_bounded (m : List ℕ → List ℚ) (o : SamplerOracles)
    (t tp : ℚ) (lb : List (ℕ × ℚ)) (rp : PyVal) (k : ℕ) (hk : 0 < k)
    (input_ids : List ℕ) (y n : ℕ) :
    ((gsRun m o ⟨t, tp, lb, rp, some k⟩ n
        ⟨input_ids, initContext (some k) input_ids⟩ y).1).repetition_context.length ≤ k ∧
      (gsStep (fun _ => tenLogits) oZero ⟨0, 1, [], PyVal.float 1, some 2⟩
          ⟨[], [3, 9]⟩ 7).2.repetition_context = [9, 3] := by
  constructor
  · exact gsRun_ctx_le m o t tp lb rp k (Nat.pos_iff_ne_zero.mp hk) n _ y
      (initContext_length_le k (Nat.pos_iff_ne_zero.mp hk) input_ids)
  · have hpt : pyTruthy (PyVal.float 1) = true := by decide
    have hone : apply_repetition_penalty tenLogits [3, 9] (pyFloatVal (PyVal.float 1)) = tenLogits :=
      apply_repetition_penalty_one tenLogits [3, 9]
    simp only [gsStep, hpt, if_true, hone]
    decide

theorem repetition_context_bounded_witness :
    ((gsRun (fun _ => tenLogits) oZero ⟨0, 1, [], PyVal.float 1, some 2⟩ 3
        ⟨[3], initContext (some 2) [3]⟩ 3).1).repetition_context.length ≤ 2 :=
  (repetition_context_bounded (fun _ => tenLogits) oZero 0 1 [] (PyVal.float 1) 2
      (by norm_num) [3] 3 3).1
